import Mathlib

/-!
# Verification of the terrain / road generation core of chill-car-drive-threejs

Shallow embedding of the numeric utilities of the driving-scene code:

* `generateHeightMap`   — the multi-octave noise heightmap generator;
* `getHeightAtPositionGrid` — the grid-backed bilinear height sampler
  (the `getHeightAtPosition` closure installed by `createTerrain`);
* `getHeightAtPositionDirect` — the direct 4-octave noise sampler
  (the `getHeightAtPosition` method of the update-loop script);
* `buildRibbon` / `ribbonPair` — the vertex loop of `createRoad`, which
  sweeps a curve and emits left/right vertex pairs.

Machine floats are idealized as exact rationals (`ℚ`) where the source code
is closed over the rationals, and as reals (`ℝ`) where square roots appear
(vector normalization).  The external noise primitives (`ImprovedNoise.noise`,
`noise.perlin2`) are parameters of the embedding, as the specification treats
them as external collaborators.
-/

namespace ChillCar

/-! ## Grid-backed height sampler (`createTerrain`, lines 296-325)

```js
this.getHeightAtPosition = (x, z) => {
  const terrainX = (x + size / 2) / size;
  const terrainZ = (z + size / 2) / size;
  if (terrainX < 0 || terrainX > 1 || terrainZ < 0 || terrainZ > 1) return 0;
  const xIndex = Math.min(Math.floor(terrainX * (resolution - 1)), resolution - 2);
  const zIndex = Math.min(Math.floor(terrainZ * (resolution - 1)), resolution - 2);
  const xFrac = (terrainX * (resolution - 1)) - xIndex;
  const zFrac = (terrainZ * (resolution - 1)) - zIndex;
  const h00 = heightMap[zIndex * resolution + xIndex] * maxHeight;
  const h10 = heightMap[zIndex * resolution + xIndex + 1] * maxHeight;
  const h01 = heightMap[(zIndex + 1) * resolution + xIndex] * maxHeight;
  const h11 = heightMap[(zIndex + 1) * resolution + xIndex + 1] * maxHeight;
  const h0 = h00 * (1 - xFrac) + h10 * xFrac;
  const h1 = h01 * (1 - xFrac) + h11 * xFrac;
  return h0 * (1 - zFrac) + h1 * zFrac;
};
```

The heightmap array is abstracted as a total function `ℤ → ℚ`; the theorem
for the implicit bounds claim shows every index the sampler reads lies in
`[0, resolution * resolution)`, i.e. inside the backing array. -/

/-- Grid cell index for one axis:
`Math.min(Math.floor(frac * (resolution - 1)), resolution - 2)`. -/
def gridIndex (resolution : ℕ) (frac : ℚ) : ℤ :=
  min ⌊frac * ((resolution : ℚ) - 1)⌋ ((resolution : ℤ) - 2)

/-- The in-bounds branch of the grid sampler: scale the four corner entries
by `maxHeight`, then interpolate bilinearly by the in-cell fractions. -/
def bilinearValue (heightMap : ℤ → ℚ) (resolution : ℕ)
    (size maxHeight : ℚ) (x z : ℚ) : ℚ :=
  let terrainX := (x + size / 2) / size
  let terrainZ := (z + size / 2) / size
  let xIndex := gridIndex resolution terrainX
  let zIndex := gridIndex resolution terrainZ
  let xFrac := terrainX * ((resolution : ℚ) - 1) - xIndex
  let zFrac := terrainZ * ((resolution : ℚ) - 1) - zIndex
  let h00 := heightMap (zIndex * resolution + xIndex) * maxHeight
  let h10 := heightMap (zIndex * resolution + xIndex + 1) * maxHeight
  let h01 := heightMap ((zIndex + 1) * resolution + xIndex) * maxHeight
  let h11 := heightMap ((zIndex + 1) * resolution + xIndex + 1) * maxHeight
  let h0 := h00 * (1 - xFrac) + h10 * xFrac
  let h1 := h01 * (1 - xFrac) + h11 * xFrac
  h0 * (1 - zFrac) + h1 * zFrac

/-- The grid-backed `getHeightAtPosition` closure: out-of-bounds queries
return 0, in-bounds queries take the bilinear branch. -/
def getHeightAtPositionGrid (heightMap : ℤ → ℚ) (resolution : ℕ)
    (size maxHeight : ℚ) (x z : ℚ) : ℚ :=
  let terrainX := (x + size / 2) / size
  let terrainZ := (z + size / 2) / size
  if terrainX < 0 ∨ terrainX > 1 ∨ terrainZ < 0 ∨ terrainZ > 1 then 0
  else bilinearValue heightMap resolution size maxHeight x z

/-- Spec-side sampler, following the specification's words: locate the
enclosing grid cell, bilinearly interpolate the four *raw* corner elevations
by the fractional offsets within the cell, then scale the interpolated value
by the fixed maximum height multiplier. -/
def sampleHeightFromGridSpec (heightMap : ℤ → ℚ) (resolution : ℕ)
    (size maxHeight : ℚ) (x z : ℚ) : ℚ :=
  let terrainX := (x + size / 2) / size
  let terrainZ := (z + size / 2) / size
  let xIndex := gridIndex resolution terrainX
  let zIndex := gridIndex resolution terrainZ
  let xFrac := terrainX * ((resolution : ℚ) - 1) - xIndex
  let zFrac := terrainZ * ((resolution : ℚ) - 1) - zIndex
  let g00 := heightMap (zIndex * resolution + xIndex)
  let g10 := heightMap (zIndex * resolution + xIndex + 1)
  let g01 := heightMap ((zIndex + 1) * resolution + xIndex)
  let g11 := heightMap ((zIndex + 1) * resolution + xIndex + 1)
  maxHeight *
    ((g00 * (1 - xFrac) + g10 * xFrac) * (1 - zFrac) +
     (g01 * (1 - xFrac) + g11 * xFrac) * zFrac)

/-! ## Direct-sampling height function (update-loop script, lines 1504-1535)

```js
getHeightAtPosition(x, z) {
  const scale = 0.01;
  const octaves = 4;
  let height = 0;
  let amplitude = 1;
  let frequency = 1;
  for (let i = 0; i < octaves; i++) {
    height += this.noise.perlin2(x * scale * frequency, z * scale * frequency) * amplitude;
    amplitude *= 0.5;
    frequency *= 2;
  }
  height = height * 15;
  if (this.config.season === "winter") { height *= 0.8; height += 2; }
  const waterHeight = -3;
  if (height < waterHeight && this.config.season !== "winter") return waterHeight;
  return height;
}
```

The external noise primitive `perlin2` is a parameter; the season string is
the `config.season` field. -/

/-- The 4-octave accumulation scaled by 15: `height * 15` just before the
seasonal adjustment.  The fold state is `(height, amplitude, frequency)`,
exactly mirroring the loop's three mutable locals. -/
def scaledNoiseHeight (perlin2 : ℚ → ℚ → ℚ) (x z : ℚ) : ℚ :=
  let scale : ℚ := 0.01
  let final := (List.range 4).foldl
    (fun (st : ℚ × ℚ × ℚ) _ =>
      (st.1 + perlin2 (x * scale * st.2.2) (z * scale * st.2.2) * st.2.1,
       st.2.1 * 0.5, st.2.2 * 2))
    (0, 1, 1)
  final.1 * 15

/-- The height after the seasonal adjustment: winter smooths (`*= 0.8`) and
raises (`+= 2`) the terrain; other seasons leave it unchanged. -/
def seasonalHeight (perlin2 : ℚ → ℚ → ℚ) (season : String) (x z : ℚ) : ℚ :=
  let h := scaledNoiseHeight perlin2 x z
  if season = "winter" then h * 0.8 + 2 else h

/-- The direct-sampling `getHeightAtPosition` method: heights below the
water level `-3` are clamped to `-3` except in winter. -/
def getHeightAtPositionDirect (perlin2 : ℚ → ℚ → ℚ) (season : String)
    (x z : ℚ) : ℚ :=
  let height := seasonalHeight perlin2 season x z
  let waterHeight : ℚ := -3
  if height < waterHeight ∧ season ≠ "winter" then waterHeight else height

/-! ## Heightmap generator (`generateHeightMap`, lines 332-360)

```js
generateHeightMap(width, height) {
  const size = width * height;
  const data = new Float32Array(size);
  const perlin = new ImprovedNoise();
  const z = Math.random() * 100;
  let quality = 1;
  const steps = 4;
  for (let j = 0; j < steps; j++) {
    for (let i = 0; i < size; i++) {
      const x = i % width;
      const y = ~~(i / width);
      data[i] += Math.abs(perlin.noise(x / quality, y / quality, z) * quality);
    }
    quality *= 4;
  }
  const min = Math.min(...data);
  const max = Math.max(...data);
  const range = max - min;
  for (let i = 0; i < size; i++) data[i] = (data[i] - min) / range;
  return data;
}
```

The octave loop and the per-entry loop are interchanged (each entry only
reads its own accumulator, so the interchange is exact): entry `i`
accumulates over qualities `1, 4, 16, 64`.  The random `z` and the noise
primitive are parameters.  JS evaluates `(data[i] - min) / range` with
`range = 0` to `NaN` (`0/0`), which the embedding renders as `none`. -/

/-- Accumulated (pre-normalization) value of grid entry `i`: the 4-octave
sum of `abs(noise(x/quality, y/quality, z) * quality)` with
`x = i % width`, `y = ~~(i / width)` and `quality = 1, 4, 16, 64`. -/
def accumHeight (noise : ℚ → ℚ → ℚ → ℚ) (width : ℕ) (z : ℚ) (i : ℕ) : ℚ :=
  let x : ℚ := (i % width : ℕ)
  let y : ℚ := (i / width : ℕ)
  ((List.range 4).foldl
    (fun (st : ℚ × ℚ) _ =>
      (st.1 + |noise (x / st.2) (y / st.2) z * st.2|, st.2 * 4))
    (0, 1)).1

/-- The accumulated grid before normalization, in row-major entry order. -/
def heightMapData (noise : ℚ → ℚ → ℚ → ℚ) (width height : ℕ) (z : ℚ) :
    List ℚ :=
  (List.range (width * height)).map (accumHeight noise width z)

/-- Model of `Math.min(...data)` over a non-empty spread (0 for the empty list,
where JS would give `Infinity`; the generator is called with positive
resolutions). -/
def listMin : List ℚ → ℚ
  | [] => 0
  | a :: as => as.foldl min a

/-- Model of `Math.max(...data)`, same conventions as `listMin`. -/
def listMax : List ℚ → ℚ
  | [] => 0
  | a :: as => as.foldl max a

/-- The heightmap generator: accumulate octaves, then min-max normalize.
A `none` entry models the JS `NaN` produced by `(data[i] - min) / range`
when `range = 0` (all accumulated samples equal). -/
def generateHeightMap (noise : ℚ → ℚ → ℚ → ℚ) (width height : ℕ) (z : ℚ) :
    List (Option ℚ) :=
  let data := heightMapData noise width height z
  let mn := listMin data
  let mx := listMax data
  let range := mx - mn
  data.map (fun d => if range = 0 then none else some ((d - mn) / range))

/-! ## Road ribbon builder (`createRoad`, lines 363-450)

The vertex loop (lines 400-417) sweeps an abstract curve object — in the
source a `THREE.CurvePath` built from Catmull-Rom segments over consecutive
control-point pairs — and writes one left/right vertex pair per sample:

```js
for (let i = 0; i <= roadSegments; i++) {
  const t = i / roadSegments;
  const point = roadCurve.getPoint(t);
  const height = this.getHeightAtPosition(point.x, point.z) + 0.2;
  const tangent = roadCurve.getTangent(t);
  const normal = new THREE.Vector3(-tangent.z, 0, tangent.x).normalize();
  for (let j = 0; j <= 1; j++) {
    const vertexIndex = (i * 2 + j) * 3;
    const width = (j === 0 ? -1 : 1) * roadWidth / 2;
    positions[vertexIndex] = point.x + normal.x * width;
    positions[vertexIndex + 1] = height;
    positions[vertexIndex + 2] = point.z + normal.z * width;
  }
}
```

The loop is embedded with the curve's `getPoint` as a parameter; the
`getTangent` of the library (`THREE.Curve.getTangent`) is the centered
finite difference with step `0.0001`, with both sample parameters clamped
into `[0, 1]`, normalized.  `THREE.Vector3.normalize` divides by
`length || 1`, so the zero vector normalizes to itself.  Components are
reals since normalization takes a square root. -/

noncomputable section

/-- A 3D vector (`THREE.Vector3`). -/
structure Vec3 where
  x : ℝ
  y : ℝ
  z : ℝ

/-- Length of a vector, `THREE.Vector3.length`: `sqrt(x*x + y*y + z*z)`. -/
def length3 (v : Vec3) : ℝ :=
  Real.sqrt (v.x * v.x + v.y * v.y + v.z * v.z)

/-- Normalization, `THREE.Vector3.normalize`: `divideScalar(length() || 1)` — the zero
vector (length 0) is divided by 1 and stays the zero vector. -/
def normalize3 (v : Vec3) : Vec3 :=
  if length3 v = 0 then v
  else ⟨v.x / length3 v, v.y / length3 v, v.z / length3 v⟩

/-- Distance between two vectors: the length of their difference. -/
def dist3 (a b : Vec3) : ℝ :=
  length3 ⟨a.x - b.x, a.y - b.y, a.z - b.z⟩

/-- Tangent estimation, `THREE.Curve.getTangent`: centered finite difference of `getPoint`
with step `delta = 0.0001`, each sample parameter clamped into `[0,1]`,
then normalized. -/
def getTangentFD (getPoint : ℝ → Vec3) (t : ℝ) : Vec3 :=
  let t1 := max (t - 0.0001) 0
  let t2 := min (t + 0.0001) 1
  let pt1 := getPoint t1
  let pt2 := getPoint t2
  normalize3 ⟨pt2.x - pt1.x, pt2.y - pt1.y, pt2.z - pt1.z⟩

/-- The left/right vertex pair the loop writes at sample index `i`:
`j = 0` uses offset `-width/2`, `j = 1` uses `+width/2`; both share the
vertical coordinate `sampleHeight(point.x, point.z) + 0.2`. -/
def ribbonPair (getPoint : ℝ → Vec3) (width : ℝ) (segments : ℕ)
    (sampleHeight : ℝ → ℝ → ℝ) (i : ℕ) : Vec3 × Vec3 :=
  let t := (i : ℝ) / (segments : ℝ)
  let point := getPoint t
  let h := sampleHeight point.x point.z + 0.2
  let tangent := getTangentFD getPoint t
  let normal := normalize3 ⟨-tangent.z, 0, tangent.x⟩
  (⟨point.x + normal.x * (-1 * width / 2), h, point.z + normal.z * (-1 * width / 2)⟩,
   ⟨point.x + normal.x * (1 * width / 2), h, point.z + normal.z * (1 * width / 2)⟩)

/-- The full vertex list of the swept ribbon, in the loop's write order
(`vertexIndex = (i * 2 + j) * 3`): pairs for `i = 0, …, segments`. -/
def buildRibbon (getPoint : ℝ → Vec3) (width : ℝ) (segments : ℕ)
    (sampleHeight : ℝ → ℝ → ℝ) : List Vec3 :=
  (List.range (segments + 1)).flatMap fun i =>
    [(ribbonPair getPoint width segments sampleHeight i).1,
     (ribbonPair getPoint width segments sampleHeight i).2]

/-- The Catmull-Rom segments `createRoad` adds to its `CurvePath`
(lines 385-391): one two-point curve per consecutive control-point pair.
With fewer than 2 control points the curve path is left empty. -/
def roadCurveSegments (controlPoints : List (ℝ × ℝ × ℝ)) :
    List ((ℝ × ℝ × ℝ) × (ℝ × ℝ × ℝ)) :=
  controlPoints.zip controlPoints.tail

/-! ### The two-point Catmull-Rom curve

`THREE.CatmullRomCurve3.getPoint` over a non-closed two-point list
`[pA, pB]` always lands in the single span `intPoint = 0` with local
weight `w = t` for `t ∈ [0,1]`, and extrapolates the missing neighbours as
`p0 = pA + (pA - pB)` and `p3 = pB + (pB - pA)`.  The centripetal knot
spacings `dt0, dt1, dt2 = pow(distanceSquared, 0.25)` of the three spans
are then all equal (the spans have equal chord length), so they are kept
as one abstract positive parameter `s`.  For the road over two control
points the `CurvePath` arc-length reparametrization is exact pass-through:
the resulting curve has constant speed, so the sampled cumulative arc
lengths are exactly linear and `getUtoTmapping` is the identity. -/

/-- One coordinate of THREE's `NonuniformCatmullRom` cubic with equal knot
spacings `s`, evaluated at local weight `w`. -/
def nonuniformCatmullRom (x0 x1 x2 x3 s w : ℝ) : ℝ :=
  let t1 := ((x1 - x0) / s - (x2 - x0) / (s + s) + (x2 - x1) / s) * s
  let t2 := ((x2 - x1) / s - (x3 - x1) / (s + s) + (x3 - x2) / s) * s
  let c0 := x1
  let c1 := t1
  let c2 := -3 * x1 + 3 * x2 - 2 * t1 - t2
  let c3 := 2 * x1 - 2 * x2 + t1 + t2
  c0 + c1 * w + c2 * (w * w) + c3 * (w * w * w)

/-- Point evaluation (`getPoint`) of the two-point non-closed Catmull-Rom curve through
`pA, pB`, with the equal centripetal knot spacing abstracted as `s`;
valid for parameters `t ∈ [0, 1]` (the only range the road loop and the
tangent finite difference sample). -/
def catmullRom2 (pA pB : Vec3) (s : ℝ) (t : ℝ) : Vec3 :=
  let p0 : Vec3 := ⟨pA.x + (pA.x - pB.x), pA.y + (pA.y - pB.y), pA.z + (pA.z - pB.z)⟩
  let p3 : Vec3 := ⟨pB.x + (pB.x - pA.x), pB.y + (pB.y - pA.y), pB.z + (pB.z - pA.z)⟩
  ⟨nonuniformCatmullRom p0.x pA.x pB.x p3.x s t,
   nonuniformCatmullRom p0.y pA.y pB.y p3.y s t,
   nonuniformCatmullRom p0.z pA.z pB.z p3.z s t⟩

end

/-! ## Helper lemmas -/

/-- The cell index `gridIndex` is nonnegative for a nonnegative fraction (resolution at
least 2). -/
theorem gridIndex_nonneg (res : ℕ) (hres : 2 ≤ res) (f : ℚ) (hf : 0 ≤ f) :
    0 ≤ gridIndex res f := by
  have hres' : (1 : ℚ) ≤ (res : ℚ) - 1 := by
    have : (2 : ℚ) ≤ (res : ℚ) := by exact_mod_cast hres
    linarith
  refine le_min ?_ ?_
  · exact Int.floor_nonneg.mpr (mul_nonneg hf (by linarith))
  · omega

/-- The cell index `gridIndex` is clamped to at most `resolution - 2`. -/
theorem gridIndex_le (res : ℕ) (f : ℚ) : gridIndex res f ≤ (res : ℤ) - 2 :=
  min_le_right _ _

/-- A `min`-fold is bounded by its initial value. -/
theorem foldl_min_le_init (as : List ℚ) (a : ℚ) : as.foldl min a ≤ a := by
  induction as generalizing a with
  | nil => simp
  | cons c cs ih => exact le_trans (ih (min a c)) (min_le_left a c)

/-- A `min`-fold is bounded by every list element. -/
theorem foldl_min_le_mem (as : List ℚ) (a b : ℚ) (hb : b ∈ as) :
    as.foldl min a ≤ b := by
  induction as generalizing a with
  | nil => cases hb
  | cons c cs ih =>
    rcases List.mem_cons.mp hb with h | h
    · subst h
      exact le_trans (foldl_min_le_init cs (min a b)) (min_le_right a b)
    · exact ih (min a c) h

/-- Evaluation helper: the fold step of `foldl min`. -/
theorem listMin_cons (a : ℚ) (as : List ℚ) :
    listMin (a :: as) = as.foldl min a := rfl

/-- A `min`-fold returns its initial value or a list element. -/
theorem foldl_min_mem (as : List ℚ) (a : ℚ) :
    as.foldl min a = a ∨ as.foldl min a ∈ as := by
  induction as generalizing a with
  | nil => exact Or.inl rfl
  | cons c cs ih =>
    rw [List.foldl_cons]
    rcases ih (min a c) with h | h
    · rcases min_choice a c with h' | h'
      · exact Or.inl (h.trans h')
      · exact Or.inr (by rw [h, h']; exact List.mem_cons_self c cs)
    · exact Or.inr (List.mem_cons_of_mem c h)

/-- A `max`-fold dominates its initial value. -/
theorem foldl_max_ge_init (as : List ℚ) (a : ℚ) : a ≤ as.foldl max a := by
  induction as generalizing a with
  | nil => simp
  | cons c cs ih => exact le_trans (le_max_left a c) (ih (max a c))

/-- A `max`-fold dominates every list element. -/
theorem foldl_max_ge_mem (as : List ℚ) (a b : ℚ) (hb : b ∈ as) :
    b ≤ as.foldl max a := by
  induction as generalizing a with
  | nil => cases hb
  | cons c cs ih =>
    rcases List.mem_cons.mp hb with h | h
    · subst h
      exact le_trans (le_max_right a b) (foldl_max_ge_init cs (max a b))
    · exact ih (max a c) h

/-- A `max`-fold returns its initial value or a list element. -/
theorem foldl_max_mem (as : List ℚ) (a : ℚ) :
    as.foldl max a = a ∨ as.foldl max a ∈ as := by
  induction as generalizing a with
  | nil => exact Or.inl rfl
  | cons c cs ih =>
    rw [List.foldl_cons]
    rcases ih (max a c) with h | h
    · rcases max_choice a c with h' | h'
      · exact Or.inl (h.trans h')
      · exact Or.inr (by rw [h, h']; exact List.mem_cons_self c cs)
    · exact Or.inr (List.mem_cons_of_mem c h)

/-- The minimum `listMin` of a non-empty list is an element of the list. -/
theorem listMin_mem (l : List ℚ) (hl : l ≠ []) : listMin l ∈ l := by
  match l with
  | [] => exact absurd rfl hl
  | a :: as =>
    rcases foldl_min_mem as a with h | h
    · rw [listMin, h]; exact List.mem_cons_self a as
    · exact List.mem_cons_of_mem a h

/-- The minimum `listMin` bounds every element from below. -/
theorem listMin_le (l : List ℚ) (b : ℚ) (hb : b ∈ l) : listMin l ≤ b := by
  match l with
  | [] => cases hb
  | a :: as =>
    rcases List.mem_cons.mp hb with h | h
    · subst h; exact foldl_min_le_init as b
    · exact foldl_min_le_mem as a b h

/-- The maximum `listMax` of a non-empty list is an element of the list. -/
theorem listMax_mem (l : List ℚ) (hl : l ≠ []) : listMax l ∈ l := by
  match l with
  | [] => exact absurd rfl hl
  | a :: as =>
    rcases foldl_max_mem as a with h | h
    · rw [listMax, h]; exact List.mem_cons_self a as
    · exact List.mem_cons_of_mem a h

/-- The maximum `listMax` bounds every element from above. -/
theorem listMax_ge (l : List ℚ) (b : ℚ) (hb : b ∈ l) : b ≤ listMax l := by
  match l with
  | [] => cases hb
  | a :: as =>
    rcases List.mem_cons.mp hb with h | h
    · subst h; exact foldl_max_ge_init as b
    · exact foldl_max_ge_mem as a b h

/-! ## Claim theorems -/

/-- C1 (amended): whenever the accumulated noise grid is not constant
(its minimum differs from its maximum), min-max normalization puts every
grid value in `[0,1]`, and the grid attains both 0 (at a minimal entry)
and 1 (at a maximal entry).  In the degenerate all-equal case the JS
division `0/0` produces `NaN` for every entry instead (see the
counterexample theorem). -/
theorem generateHeightMap_normalized (noise : ℚ → ℚ → ℚ → ℚ)
    (width height : ℕ) (z : ℚ)
    (hne : listMin (heightMapData noise width height z) ≠
      listMax (heightMapData noise width height z)) :
    (∀ v ∈ generateHeightMap noise width height z,
      ∃ q, v = some q ∧ 0 ≤ q ∧ q ≤ 1) ∧
    some 0 ∈ generateHeightMap noise width height z ∧
    some 1 ∈ generateHeightMap noise width height z := by
  set data := heightMapData noise width height z with hdata
  have hnil : data ≠ [] := by
    intro h0
    rw [h0] at hne
    exact hne rfl
  have hmnmem := listMin_mem data hnil
  have hmxmem := listMax_mem data hnil
  have hle : listMin data ≤ listMax data := listMin_le data _ hmxmem
  have hlt : listMin data < listMax data := lt_of_le_of_ne hle hne
  have hpos : 0 < listMax data - listMin data := by linarith
  have hrange : listMax data - listMin data ≠ 0 := ne_of_gt hpos
  have hmap : generateHeightMap noise width height z =
      data.map (fun d => some ((d - listMin data) / (listMax data - listMin data))) := by
    simp only [generateHeightMap, ← hdata, if_neg hrange]
  refine ⟨?_, ?_, ?_⟩
  · intro v hv
    rw [hmap] at hv
    rcases List.mem_map.mp hv with ⟨d, hd, hfd⟩
    refine ⟨(d - listMin data) / (listMax data - listMin data), hfd.symm, ?_, ?_⟩
    · exact div_nonneg (by linarith [listMin_le data d hd]) (le_of_lt hpos)
    · rw [div_le_one hpos]
      linarith [listMax_ge data d hd]
  · rw [hmap]
    have : (fun d => some ((d - listMin data) / (listMax data - listMin data)))
        (listMin data) = some 0 := by
      simp
    rw [← this]
    exact List.mem_map_of_mem _ hmnmem
  · rw [hmap]
    have : (fun d => some ((d - listMin data) / (listMax data - listMin data)))
        (listMax data) = some 1 := by
      simp [div_self hrange]
    rw [← this]
    exact List.mem_map_of_mem _ hmxmem

/-- Counterexample to C1 as stated: with a degenerate noise input (the
constant-zero noise) all accumulated samples are equal, the normalization
divides by a zero range, and every entry of the 2×2 grid becomes `NaN`
(`none`); in particular no grid value equals 1. -/
theorem generateHeightMap_degenerate_counterexample :
    generateHeightMap (fun _ _ _ => 0) 2 2 0 = [none, none, none, none] ∧
    some (1 : ℚ) ∉ generateHeightMap (fun _ _ _ => 0) 2 2 0 := by
  have hdata : heightMapData (fun _ _ _ => 0) 2 2 0 = [0, 0, 0, 0] := by
    norm_num [heightMapData, accumHeight, List.range_succ]
  have hmain : generateHeightMap (fun _ _ _ => 0) 2 2 0 =
      [none, none, none, none] := by
    simp [generateHeightMap, hdata, listMin, listMax]
  exact ⟨hmain, by simp [hmain]⟩

/-- Witness for the amended C1 on a 2×1 grid with the noise `(x, y, z) ↦ x`:
the accumulated data `[0, 4]` is non-constant and the normalized grid
attains the value 1. -/
theorem generateHeightMap_normalized_witness :
    listMin (heightMapData (fun x _ _ => x) 2 1 0) ≠
      listMax (heightMapData (fun x _ _ => x) 2 1 0) ∧
    some (1 : ℚ) ∈ generateHeightMap (fun x _ _ => x) 2 1 0 := by
  have hdata : heightMapData (fun x _ _ => x) 2 1 0 = [0, 4] := by
    norm_num [heightMapData, accumHeight, List.range_succ]
  have hne : listMin (heightMapData (fun x _ _ => x) 2 1 0) ≠
      listMax (heightMapData (fun x _ _ => x) 2 1 0) := by
    rw [hdata]
    norm_num [listMin, listMax, min_def, max_def]
  exact ⟨hne, (generateHeightMap_normalized (fun x _ _ => x) 2 1 0 hne).2.2⟩

/-- C4: for every query point whose grid-fraction coordinates lie inside
`[0,1]`, the grid-backed sampler returns the bilinear interpolation of the
four corner elevations of the enclosing grid cell, using the fractional
offsets within the cell, scaled by the maximum height multiplier — i.e. it
agrees with the spec-side sampler that interpolates the raw corner values
and then scales. -/
theorem grid_sampler_is_bilinear (heightMap : ℤ → ℚ) (resolution : ℕ)
    (size maxHeight : ℚ) (x z : ℚ)
    (hx0 : 0 ≤ (x + size / 2) / size) (hx1 : (x + size / 2) / size ≤ 1)
    (hz0 : 0 ≤ (z + size / 2) / size) (hz1 : (z + size / 2) / size ≤ 1) :
    getHeightAtPositionGrid heightMap resolution size maxHeight x z =
      sampleHeightFromGridSpec heightMap resolution size maxHeight x z := by
  have hcond : ¬((x + size / 2) / size < 0 ∨ (x + size / 2) / size > 1 ∨
      (z + size / 2) / size < 0 ∨ (z + size / 2) / size > 1) := by
    push_neg
    exact ⟨hx0, hx1, hz0, hz1⟩
  simp only [getHeightAtPositionGrid, sampleHeightFromGridSpec, bilinearValue,
    if_neg hcond]
  ring

/-- Witness for C4 at the terrain's actual constants
(`resolution = 128`, `size = 1000`, `maxHeight = 30`) and query `(0, 0)`. -/
theorem grid_sampler_is_bilinear_witness :
    getHeightAtPositionGrid (fun _ => 1) 128 1000 30 0 0 =
      sampleHeightFromGridSpec (fun _ => 1) 128 1000 30 0 0 :=
  grid_sampler_is_bilinear (fun _ => 1) 128 1000 30 0 0
    (by norm_num) (by norm_num) (by norm_num) (by norm_num)

/-- C5: a query whose mapped grid-fraction coordinate falls outside `[0,1]`
in either axis returns exactly 0. -/
theorem grid_sampler_out_of_bounds (heightMap : ℤ → ℚ) (resolution : ℕ)
    (size maxHeight : ℚ) (x z : ℚ)
    (h : (x + size / 2) / size < 0 ∨ (x + size / 2) / size > 1 ∨
      (z + size / 2) / size < 0 ∨ (z + size / 2) / size > 1) :
    getHeightAtPositionGrid heightMap resolution size maxHeight x z = 0 := by
  simp only [getHeightAtPositionGrid, if_pos h]

/-- Witness for C5: the query `(10000, 0)` over the 1000-unit terrain maps
to fraction `10.5 > 1` and samples to 0. -/
theorem grid_sampler_out_of_bounds_witness :
    getHeightAtPositionGrid (fun _ => 1) 128 1000 30 10000 0 = 0 :=
  grid_sampler_out_of_bounds (fun _ => 1) 128 1000 30 10000 0
    (Or.inr (Or.inl (by norm_num)))

/-- C6: the direct sampler clamps sub-water heights to the water level `-3`
outside winter, returns heights at or above the water level unchanged, and
applies no clamping in winter (where the computed height is the smoothed and
raised `h * 0.8 + 2`). -/
theorem direct_sampler_water_clamp (perlin2 : ℚ → ℚ → ℚ) (season : String)
    (x z : ℚ) :
    (season ≠ "winter" → scaledNoiseHeight perlin2 x z < -3 →
      getHeightAtPositionDirect perlin2 season x z = -3) ∧
    (season ≠ "winter" → -3 ≤ scaledNoiseHeight perlin2 x z →
      getHeightAtPositionDirect perlin2 season x z =
        scaledNoiseHeight perlin2 x z) ∧
    (season = "winter" →
      getHeightAtPositionDirect perlin2 season x z =
        scaledNoiseHeight perlin2 x z * 0.8 + 2) := by
  refine ⟨fun hw hlt => ?_, fun hw hge => ?_, fun hw => ?_⟩
  · simp only [getHeightAtPositionDirect, seasonalHeight, if_neg hw]
    rw [if_pos ⟨hlt, hw⟩]
  · simp only [getHeightAtPositionDirect, seasonalHeight, if_neg hw]
    rw [if_neg]
    intro hc
    exact absurd hc.1 (not_lt.mpr hge)
  · simp only [getHeightAtPositionDirect, seasonalHeight, if_pos hw]
    rw [if_neg]
    intro hc
    exact hc.2 hw

/-- Witness for C6: with the constant noise `-1` the scaled height is
`-28.125 < -3`, and in summer the sampler returns the water level `-3`. -/
theorem direct_sampler_water_clamp_witness :
    getHeightAtPositionDirect (fun _ _ => -1) "summer" 0 0 = -3 :=
  (direct_sampler_water_clamp (fun _ _ => -1) "summer" 0 0).1
    (by decide) (by norm_num [scaledNoiseHeight, List.range_succ])

/-- C7: height sampling is total — every query falls into a defined case:
the grid-backed sampler returns either the out-of-bounds fallback 0 or the
bilinear value, and the direct sampler returns either the water level `-3`
or the computed seasonal height.  No input is left without a defined
numeric result. -/
theorem height_sampling_total :
    (∀ (heightMap : ℤ → ℚ) (resolution : ℕ) (size maxHeight x z : ℚ),
      getHeightAtPositionGrid heightMap resolution size maxHeight x z = 0 ∨
      getHeightAtPositionGrid heightMap resolution size maxHeight x z =
        bilinearValue heightMap resolution size maxHeight x z) ∧
    (∀ (perlin2 : ℚ → ℚ → ℚ) (season : String) (x z : ℚ),
      getHeightAtPositionDirect perlin2 season x z = -3 ∨
      getHeightAtPositionDirect perlin2 season x z =
        seasonalHeight perlin2 season x z) := by
  constructor
  · intro heightMap resolution size maxHeight x z
    simp only [getHeightAtPositionGrid]
    split
    · exact Or.inl rfl
    · exact Or.inr rfl
  · intro perlin2 season x z
    simp only [getHeightAtPositionDirect]
    split
    · exact Or.inl rfl
    · exact Or.inr rfl

/-- C10 (implicit): for in-`[0,1]` grid fractions the clamped cell indices
put all four corner reads `zIndex*resolution + xIndex`,
`zIndex*resolution + xIndex + 1`, `(zIndex+1)*resolution + xIndex` and
`(zIndex+1)*resolution + xIndex + 1` inside the heightmap array bounds
`[0, resolution * resolution)`. -/
theorem grid_sampler_indices_in_bounds (res : ℕ) (hres : 2 ≤ res)
    (fx fz : ℚ) (hx0 : 0 ≤ fx) (hx1 : fx ≤ 1) (hz0 : 0 ≤ fz) (hz1 : fz ≤ 1) :
    (0 ≤ gridIndex res fz * res + gridIndex res fx ∧
      gridIndex res fz * res + gridIndex res fx < (res : ℤ) * res) ∧
    (0 ≤ gridIndex res fz * res + gridIndex res fx + 1 ∧
      gridIndex res fz * res + gridIndex res fx + 1 < (res : ℤ) * res) ∧
    (0 ≤ (gridIndex res fz + 1) * res + gridIndex res fx ∧
      (gridIndex res fz + 1) * res + gridIndex res fx < (res : ℤ) * res) ∧
    (0 ≤ (gridIndex res fz + 1) * res + gridIndex res fx + 1 ∧
      (gridIndex res fz + 1) * res + gridIndex res fx + 1 < (res : ℤ) * res) := by
  have hxl := gridIndex_nonneg res hres fx hx0
  have hzl := gridIndex_nonneg res hres fz hz0
  have hxu := gridIndex_le res fx
  have hzu := gridIndex_le res fz
  have hr : (2 : ℤ) ≤ (res : ℤ) := by exact_mod_cast hres
  set a := gridIndex res fz with ha
  set b := gridIndex res fx with hb
  have hlow : 0 ≤ a * (res : ℤ) + b :=
    add_nonneg (mul_nonneg hzl (by linarith)) hxl
  have hstep : a * (res : ℤ) ≤ ((res : ℤ) - 2) * (res : ℤ) :=
    mul_le_mul_of_nonneg_right hzu (by linarith)
  have hhigh : (a + 1) * (res : ℤ) + b + 1 < (res : ℤ) * res := by
    nlinarith
  refine ⟨⟨hlow, ?_⟩, ⟨by linarith, ?_⟩, ⟨by nlinarith, ?_⟩, ⟨by nlinarith, hhigh⟩⟩
  · nlinarith
  · nlinarith
  · nlinarith

/-- A flat-map that emits two elements per input doubles the length. -/
theorem length_flatMap_pair {α β : Type} (l : List α) (f g : α → β) :
    (l.flatMap fun a => [f a, g a]).length = 2 * l.length := by
  induction l with
  | nil => rfl
  | cons a as ih =>
    simp only [List.flatMap_cons, List.length_append, List.length_cons,
      List.length_nil, List.length_flatMap] at *
    omega

/-- The zero vector normalizes to itself (`divideScalar(length() || 1)`). -/
theorem normalize3_zero : normalize3 ⟨0, 0, 0⟩ = ⟨0, 0, 0⟩ := by
  simp [normalize3, length3]

/-- Normalizing a vector along positive `z` gives the `z` unit vector. -/
theorem normalize3_zUnit (c : ℝ) (hc : 0 < c) :
    normalize3 ⟨0, 0, c⟩ = ⟨0, 0, 1⟩ := by
  have hlen : length3 (⟨0, 0, c⟩ : Vec3) = c := by
    simp only [length3]
    rw [show (0:ℝ) * 0 + 0 * 0 + c * c = c * c by ring]
    exact Real.sqrt_mul_self hc.le
  simp [normalize3, hlen, hc.ne', div_self]

/-- Normalizing a vector along positive `y` gives the `y` unit vector. -/
theorem normalize3_yUnit (c : ℝ) (hc : 0 < c) :
    normalize3 ⟨0, c, 0⟩ = ⟨0, 1, 0⟩ := by
  have hlen : length3 (⟨0, c, 0⟩ : Vec3) = c := by
    simp only [length3]
    rw [show (0:ℝ) * 0 + c * c + 0 * 0 = c * c by ring]
    exact Real.sqrt_mul_self hc.le
  simp [normalize3, hlen, hc.ne', div_self]

/-- The vector `⟨-1, 0, 0⟩` is already a unit vector. -/
theorem normalize3_negX : normalize3 ⟨-1, 0, 0⟩ = ⟨-1, 0, 0⟩ := by
  have hlen : length3 (⟨-1, 0, 0⟩ : Vec3) = 1 := by
    simp only [length3]
    rw [show (-1:ℝ) * -1 + 0 * 0 + 0 * 0 = 1 by ring]
    exact Real.sqrt_one
  simp [normalize3, hlen]

/-- Witness for C10 at `resolution = 128` and the boundary fractions
`fx = fz = 1` (the corner that forces the clamp to `resolution - 2`). -/
theorem grid_sampler_indices_in_bounds_witness :
    (0 ≤ gridIndex 128 1 * 128 + gridIndex 128 1 ∧
      gridIndex 128 1 * 128 + gridIndex 128 1 < (128 : ℤ) * 128) ∧
    (0 ≤ gridIndex 128 1 * 128 + gridIndex 128 1 + 1 ∧
      gridIndex 128 1 * 128 + gridIndex 128 1 + 1 < (128 : ℤ) * 128) ∧
    (0 ≤ (gridIndex 128 1 + 1) * 128 + gridIndex 128 1 ∧
      (gridIndex 128 1 + 1) * 128 + gridIndex 128 1 < (128 : ℤ) * 128) ∧
    (0 ≤ (gridIndex 128 1 + 1) * 128 + gridIndex 128 1 + 1 ∧
      (gridIndex 128 1 + 1) * 128 + gridIndex 128 1 + 1 < (128 : ℤ) * 128) :=
  grid_sampler_indices_in_bounds 128 (by norm_num) 1 1
    (by norm_num) (by norm_num) (by norm_num) (by norm_num)

/-- Finite-difference tangent of the straight centerline
`t ↦ (0, 0, 10 t)` at any parameter in `[0, 1]`: the `z` unit vector. -/
theorem getTangentFD_line (t : ℝ) (h0 : 0 ≤ t) (h1 : t ≤ 1) :
    getTangentFD (fun u => (⟨0, 0, 10 * u⟩ : Vec3)) t = ⟨0, 0, 1⟩ := by
  have hlt : max (t - 0.0001) 0 < min (t + 0.0001) 1 := by
    rcases lt_or_le t 1 with hc | hc
    · have ha : t < min (t + 0.0001) 1 := lt_min (by linarith) hc
      have hb : max (t - 0.0001) 0 ≤ t := max_le (by linarith) h0
      linarith
    · have ht1 : t = 1 := le_antisymm h1 hc
      subst ht1
      rw [max_eq_left (by norm_num), min_eq_right (by norm_num)]
      norm_num
  have hpos : (0 : ℝ) <
      10 * min (t + 0.0001) 1 - 10 * max (t - 0.0001) 0 := by linarith
  simp only [getTangentFD]
  rw [show (0 : ℝ) - 0 = 0 by ring]
  exact normalize3_zUnit _ hpos

/-- Finite-difference tangent of the vertical centerline
`t ↦ (0, 10 t, 0)` at parameter 0: the `y` unit vector. -/
theorem getTangentFD_vline_zero :
    getTangentFD (fun u => (⟨0, 10 * u, 0⟩ : Vec3)) 0 = ⟨0, 1, 0⟩ := by
  simp only [getTangentFD]
  rw [show (0 : ℝ) - 0 = 0 by ring]
  rw [show max ((0 : ℝ) - 0.0001) 0 = 0 from max_eq_right (by norm_num)]
  rw [show min ((0 : ℝ) + 0.0001) 1 = 0 + 0.0001 from min_eq_left (by norm_num)]
  rw [show (10 : ℝ) * (0 + 0.0001) - 10 * 0 = 0.001 by norm_num]
  exact normalize3_yUnit 0.001 (by norm_num)

/-- One coordinate of the two-point Catmull-Rom with reflected end
neighbours is exact linear interpolation, for any nonzero knot spacing. -/
theorem nonuniformCatmullRom_two_point (a b s w : ℝ) (hs : s ≠ 0) :
    nonuniformCatmullRom (a + (a - b)) a b (b + (b - a)) s w =
      a + (b - a) * w := by
  have h2 : s + s ≠ 0 := fun h => hs (by linarith)
  simp only [nonuniformCatmullRom]
  field_simp
  ring

/-- The two-point Catmull-Rom curve is the straight segment from `pA` to
`pB`, whatever the (nonzero) centripetal knot spacing is. -/
theorem catmullRom2_eq_line (pA pB : Vec3) (s : ℝ) (hs : s ≠ 0) (t : ℝ) :
    catmullRom2 pA pB s t =
      ⟨pA.x + (pB.x - pA.x) * t, pA.y + (pB.y - pA.y) * t,
       pA.z + (pB.z - pA.z) * t⟩ := by
  simp only [catmullRom2]
  rw [nonuniformCatmullRom_two_point pA.x pB.x s t hs,
    nonuniformCatmullRom_two_point pA.y pB.y s t hs,
    nonuniformCatmullRom_two_point pA.z pB.z s t hs]

/-- C3: the ribbon built by the road vertex loop has exactly
`2 * (segments + 1)` vertices — one left/right pair per sample step. -/
theorem buildRibbon_vertex_count (getPoint : ℝ → Vec3) (width : ℝ)
    (segments : ℕ) (sampleHeight : ℝ → ℝ → ℝ) (hseg : 1 ≤ segments) :
    (buildRibbon getPoint width segments sampleHeight).length =
      2 * (segments + 1) := by
  have := length_flatMap_pair (List.range (segments + 1))
    (fun i => (ribbonPair getPoint width segments sampleHeight i).1)
    (fun i => (ribbonPair getPoint width segments sampleHeight i).2)
  rw [List.length_range] at this
  exact this

/-- Witness for C3 at one segment over a concrete curve: 4 vertices. -/
theorem buildRibbon_vertex_count_witness :
    (buildRibbon (fun _ => ⟨0, 0, 0⟩) 15 1 (fun _ _ => 0)).length =
      2 * (1 + 1) :=
  buildRibbon_vertex_count (fun _ => ⟨0, 0, 0⟩) 15 1 (fun _ _ => 0)
    (by norm_num)

/-- Counterexample to C2 as stated: the road builder does not fail with an
`InvalidInput` condition on a segment count below 1 — with `segments = 0`
the vertex loop still runs once and emits two (coincident, degenerate)
vertices.  (In the repository no validation exists at all: `createRoad`
hard-codes 10 control points and 100 segments and its loop is
unconditional.) -/
theorem ribbon_no_invalid_input_counterexample :
    buildRibbon (fun _ => ⟨0, 0, 0⟩) 15 0 (fun _ _ => 0) =
      [⟨0, 0.2, 0⟩, ⟨0, 0.2, 0⟩] := by
  have hpair : ribbonPair (fun _ => (⟨0, 0, 0⟩ : Vec3)) 15 0 (fun _ _ => 0) 0 =
      ((⟨0, 0.2, 0⟩ : Vec3), (⟨0, 0.2, 0⟩ : Vec3)) := by
    simp only [ribbonPair, getTangentFD]
    rw [show (0 : ℝ) - 0 = 0 by ring, normalize3_zero]
    rw [show -(0 : ℝ) = 0 by ring, normalize3_zero]
    norm_num
  rw [buildRibbon, show List.range 1 = [0] from rfl]
  simp [hpair]

/-- C2 (amended): no input validation exists in the road builder.  The
vertex loop unconditionally emits two vertices even for `segments = 0`
(in JS its parameter `t = 0/0` is `NaN` there), and with a single control
point the builder adds no curve segments at all to its curve path (whose
sampling then cannot yield points) — in neither case is an `InvalidInput`
condition raised. -/
theorem ribbon_builder_no_validation :
    (∀ (getPoint : ℝ → Vec3) (width : ℝ) (sampleHeight : ℝ → ℝ → ℝ),
      (buildRibbon getPoint width 0 sampleHeight).length = 2) ∧
    (∀ p : ℝ × ℝ × ℝ, roadCurveSegments [p] = []) := by
  refine ⟨fun getPoint width sampleHeight => ?_, fun p => rfl⟩
  rw [buildRibbon, show List.range 1 = [0] from rfl]
  simp

/-- The vertex pair over the straight centerline `t ↦ (0, 0, 10 t)`, width
4, flat heightfield: `(2, 0.2, 10 t)` and `(-2, 0.2, 10 t)`. -/
theorem ribbonPair_line (segs i : ℕ)
    (h0 : (0 : ℝ) ≤ (i : ℝ) / (segs : ℝ)) (h1 : (i : ℝ) / (segs : ℝ) ≤ 1) :
    ribbonPair (fun u => (⟨0, 0, 10 * u⟩ : Vec3)) 4 segs (fun _ _ => 0) i =
      (⟨2, 0.2, 10 * ((i : ℝ) / (segs : ℝ))⟩,
       ⟨-2, 0.2, 10 * ((i : ℝ) / (segs : ℝ))⟩) := by
  simp only [ribbonPair]
  rw [getTangentFD_line _ h0 h1]
  norm_num [normalize3_negX]

/-- C8: over a flat heightfield every emitted road vertex sits at the
sampled height plus the fixed clearance `0.2`; and the ribbon over the two
collinear control points `(0,0,0)`, `(0,0,10)` with width 4 and 2 segments
has exactly the 6 vertices `(±2, 0.2, z)` for `z = 0, 5, 10` — for every
admissible centripetal knot spacing `s ≠ 0` of the two-point
Catmull-Rom curve. -/
theorem ribbon_flat_heightfield_scenario :
    (∀ (getPoint : ℝ → Vec3) (width : ℝ) (segments i : ℕ),
      (ribbonPair getPoint width segments (fun _ _ => 0) i).1.y = 0.2 ∧
      (ribbonPair getPoint width segments (fun _ _ => 0) i).2.y = 0.2) ∧
    (∀ s : ℝ, s ≠ 0 →
      buildRibbon (catmullRom2 ⟨0, 0, 0⟩ ⟨0, 0, 10⟩ s) 4 2 (fun _ _ => 0) =
        [⟨2, 0.2, 0⟩, ⟨-2, 0.2, 0⟩, ⟨2, 0.2, 5⟩, ⟨-2, 0.2, 5⟩,
         ⟨2, 0.2, 10⟩, ⟨-2, 0.2, 10⟩]) := by
  constructor
  · intro getPoint width segments i
    constructor <;> simp [ribbonPair]
  · intro s hs
    have hcurve : catmullRom2 ⟨0, 0, 0⟩ ⟨0, 0, 10⟩ s =
        fun t => (⟨0, 0, 10 * t⟩ : Vec3) := by
      funext t
      rw [catmullRom2_eq_line _ _ s hs t]
      norm_num
    rw [hcurve, buildRibbon, show List.range (2 + 1) = [0, 1, 2] from rfl]
    have e0 := ribbonPair_line 2 0 (by norm_num) (by norm_num)
    have e1 := ribbonPair_line 2 1 (by norm_num) (by norm_num)
    have e2 := ribbonPair_line 2 2 (by norm_num) (by norm_num)
    simp only [List.flatMap_cons, List.flatMap_nil, e0, e1, e2]
    norm_num

/-- Witness for C8 at the concrete knot spacing `s = 1`. -/
theorem ribbon_flat_heightfield_scenario_witness :
    buildRibbon (catmullRom2 ⟨0, 0, 0⟩ ⟨0, 0, 10⟩ 1) 4 2 (fun _ _ => 0) =
      [⟨2, 0.2, 0⟩, ⟨-2, 0.2, 0⟩, ⟨2, 0.2, 5⟩, ⟨-2, 0.2, 5⟩,
       ⟨2, 0.2, 10⟩, ⟨-2, 0.2, 10⟩] :=
  ribbon_flat_heightfield_scenario.2 1 one_ne_zero

/-- Distance between the two vertices of an emitted pair, as a function of
the (not yet normalized) horizontal offsets `u, v`. -/
theorem dist3_pair_formula (px pz h u v w : ℝ) :
    dist3 ⟨px + u * (-1 * w / 2), h, pz + v * (-1 * w / 2)⟩
      ⟨px + u * (1 * w / 2), h, pz + v * (1 * w / 2)⟩ =
      Real.sqrt ((u * u + v * v) * (w * w)) := by
  simp only [dist3, length3]
  congr 1
  ring

/-- C9 (amended): at every sample index where the curve tangent has a
nonzero horizontal component, the left and right vertices of the emitted
pair lie exactly `width` apart (for a nonnegative width) — in particular
within the spec's `1e-4` tolerance.  When the tangent is vertical, THREE's
`normalize` leaves the zero vector unchanged and the pair collapses to
distance 0 instead (see the counterexample theorem). -/
theorem ribbon_pair_width_exact (getPoint : ℝ → Vec3) (width : ℝ)
    (segments : ℕ) (sampleHeight : ℝ → ℝ → ℝ) (i : ℕ) (hw : 0 ≤ width)
    (htan : (getTangentFD getPoint ((i : ℝ) / (segments : ℝ))).x *
        (getTangentFD getPoint ((i : ℝ) / (segments : ℝ))).x +
      (getTangentFD getPoint ((i : ℝ) / (segments : ℝ))).z *
        (getTangentFD getPoint ((i : ℝ) / (segments : ℝ))).z ≠ 0) :
    dist3 (ribbonPair getPoint width segments sampleHeight i).1
      (ribbonPair getPoint width segments sampleHeight i).2 = width := by
  set T := getTangentFD getPoint ((i : ℝ) / (segments : ℝ)) with hT
  have hsum : 0 < T.x * T.x + T.z * T.z :=
    lt_of_le_of_ne (add_nonneg (mul_self_nonneg _) (mul_self_nonneg _))
      (Ne.symm htan)
  have hlen : length3 ⟨-T.z, 0, T.x⟩ = Real.sqrt (T.x * T.x + T.z * T.z) := by
    simp only [length3]
    congr 1
    ring
  have hlpos : 0 < length3 ⟨-T.z, 0, T.x⟩ := by
    rw [hlen]
    exact Real.sqrt_pos.mpr hsum
  have hll : length3 ⟨-T.z, 0, T.x⟩ * length3 ⟨-T.z, 0, T.x⟩ =
      T.x * T.x + T.z * T.z := by
    rw [hlen]
    exact Real.mul_self_sqrt hsum.le
  simp only [ribbonPair, ← hT]
  rw [dist3_pair_formula, normalize3, if_neg hlpos.ne']
  have hone : (-T.z / length3 ⟨-T.z, 0, T.x⟩) * (-T.z / length3 ⟨-T.z, 0, T.x⟩) +
      (T.x / length3 ⟨-T.z, 0, T.x⟩) * (T.x / length3 ⟨-T.z, 0, T.x⟩) = 1 := by
    rw [div_mul_div_comm, div_mul_div_comm, div_add_div_same, hll]
    rw [show -T.z * -T.z + T.x * T.x = T.x * T.x + T.z * T.z by ring]
    exact div_self hsum.ne'
  show Real.sqrt ((_ * _ + _ * _) * (width * width)) = width
  rw [hone, one_mul]
  exact Real.sqrt_mul_self hw

/-- Witness for the amended C9: over the straight centerline with width 4,
one segment and sample index 0, the pair distance is exactly 4. -/
theorem ribbon_pair_width_exact_witness :
    dist3 (ribbonPair (fun u => (⟨0, 0, 10 * u⟩ : Vec3)) 4 1
        (fun _ _ => 0) 0).1
      (ribbonPair (fun u => (⟨0, 0, 10 * u⟩ : Vec3)) 4 1
        (fun _ _ => 0) 0).2 = 4 := by
  refine ribbon_pair_width_exact _ 4 1 _ 0 (by norm_num) ?_
  rw [show ((0 : ℕ) : ℝ) / ((1 : ℕ) : ℝ) = 0 by norm_num]
  rw [getTangentFD_line 0 le_rfl zero_le_one]
  norm_num

/-- Counterexample to C9 as stated: the ribbon built over the two
*vertically* stacked control points `(0,0,0)`, `(0,10,0)` (knot spacing 1)
has a vertical tangent; the planar normal is the zero vector, both pair
vertices coincide, and the pair distance 0 misses the width 4 by far more
than the `1e-4` tolerance. -/
theorem ribbon_pair_width_counterexample :
    ¬ |dist3 (ribbonPair (catmullRom2 ⟨0, 0, 0⟩ ⟨0, 10, 0⟩ 1) 4 1
          (fun _ _ => 0) 0).1
        (ribbonPair (catmullRom2 ⟨0, 0, 0⟩ ⟨0, 10, 0⟩ 1) 4 1
          (fun _ _ => 0) 0).2 - 4| ≤ 0.0001 := by
  have hcurve : catmullRom2 ⟨0, 0, 0⟩ ⟨0, 10, 0⟩ 1 =
      fun t => (⟨0, 10 * t, 0⟩ : Vec3) := by
    funext t
    rw [catmullRom2_eq_line _ _ 1 one_ne_zero t]
    norm_num
  rw [hcurve]
  have hpair : ribbonPair (fun t => (⟨0, 10 * t, 0⟩ : Vec3)) 4 1
      (fun _ _ => 0) 0 = ((⟨0, 0.2, 0⟩ : Vec3), (⟨0, 0.2, 0⟩ : Vec3)) := by
    simp only [ribbonPair]
    rw [show ((0 : ℕ) : ℝ) / ((1 : ℕ) : ℝ) = 0 by norm_num]
    rw [getTangentFD_vline_zero]
    norm_num [normalize3_zero]
  rw [hpair]
  have hz : dist3 (⟨0, 0.2, 0⟩ : Vec3) ⟨0, 0.2, 0⟩ = 0 := by
    simp [dist3, length3]
  rw [hz]
  norm_num

end ChillCar
